import Mathlib

/-!
Verification of the BusinessToolsBrowser core pipeline.

This file is a shallow embedding, in Lean 4, of the pipeline code of the
repository (src/src/business_tools_app.py and src/business_tools.py):
link validation, result fold-back, merge and URL deduplication, column
standardization, URL description enrichment with its cache, and the
standardize-and-validate filter.  Network I/O is modelled by explicit
oracles (a `Net` record of response functions); Python exceptions raised
by the requests library are modelled as outcome constructors, since the
source catches exactly those exception classes and maps each to data.
All definitions are executable and follow the Python line by line; the
theorems at the end of the file settle the specification claims.
-/

/-- Outcome of one `requests.head` or `requests.get` call as observed by
`LinkValidator.validate_url` (business_tools_app.py lines 57-74): a
response with a status code, or one of the exception classes the source
catches (`Timeout`, `ConnectionError`, other `RequestException`, any
other `Exception`). -/
inductive ReqOutcome where
  | ok (code : Nat)
  | timeout
  | connError
  | reqExc (msg : String)
  | otherExc (msg : String)
  deriving DecidableEq, Repr

/-- A fetched HTML page as seen by `extract_url_description`
(business_tools.py lines 180-212): the four places the fallback chain
reads, each possibly absent. -/
structure Page where
  title : Option String
  metaDesc : Option String
  ogTitle : Option String
  h1 : Option String
  deriving DecidableEq, Repr

/-- Outcome of the `requests.get` call in `extract_url_description`
(business_tools.py lines 177-178, including `raise_for_status`): a
parsed page (status below 400), or one of the caught exception classes
(`Timeout`, `ConnectionError`, `HTTPError` carrying the status code,
any other `Exception`). -/
inductive FetchOutcome where
  | ok (page : Page)
  | timeout
  | connError
  | httpError (code : Nat)
  | exc (msg : String)
  deriving DecidableEq, Repr

/-- The network, as three response oracles: `head` models
`session.head`/`requests.head`, `get` models the 405-fallback
`session.get` of the validator, and `fetch` models the page `GET` of
the enrichment stage. -/
structure Net where
  head : String → ReqOutcome
  get : String → ReqOutcome
  fetch : String → FetchOutcome

/-! Python string primitives, implemented over the character list so
that every definition evaluates inside the kernel. -/

/-- Python `s.strip()`: drop leading and trailing whitespace. -/
def py_strip (s : String) : String :=
  ⟨((s.data.dropWhile Char.isWhitespace).reverse.dropWhile
      Char.isWhitespace).reverse⟩

/-- Python `s.lower()` (ASCII model). -/
def py_lower (s : String) : String :=
  ⟨s.data.map Char.toLower⟩

/-- Python `s.startswith(pre)`. -/
def py_startswith (s pre : String) : Bool :=
  pre.data.isPrefixOf s.data

/-- Python `c in s` for a single character. -/
def py_contains (s : String) (c : Char) : Bool :=
  s.data.contains c

/-- Python `s[:n]`. -/
def py_take (s : String) (n : Nat) : String :=
  ⟨s.data.take n⟩

/-- Python `len(s)`. -/
def py_len (s : String) : Nat :=
  s.data.length

/-- The six validation statuses of `LinkValidator.validate_url`
(business_tools_app.py lines 43-74). -/
inductive Status where
  | empty
  | invalid
  | valid
  | error
  | timeout
  | connectionError
  deriving DecidableEq, Repr

/-- The dict returned by `validate_url`:
`{url, status, code, message}`. -/
structure VResult where
  url : String
  status : Status
  code : Option Nat
  message : String
  deriving DecidableEq, Repr

/-- The `try` block of `validate_url` (business_tools_app.py lines
57-74): HEAD the (already scheme-normalized) URL, retry once with GET
when the server answers 405, classify the final status code, and map
each caught exception class to a result dict. -/
def try_request (net : Net) (u : String) : VResult :=
  match net.head u with
  | .ok c =>
    if c = 405 then
      match net.get u with
      | .ok c2 =>
        if c2 < 400 then ⟨u, .valid, some c2, "OK"⟩
        else ⟨u, .error, some c2, "HTTP " ++ toString c2⟩
      | .timeout => ⟨u, .timeout, none, "Timeout"⟩
      | .connError => ⟨u, .connectionError, none, "Connection failed"⟩
      | .reqExc m => ⟨u, .error, none, m⟩
      | .otherExc m => ⟨u, .error, none, "Unexpected error: " ++ m⟩
    else if c < 400 then ⟨u, .valid, some c, "OK"⟩
    else ⟨u, .error, some c, "HTTP " ++ toString c⟩
  | .timeout => ⟨u, .timeout, none, "Timeout"⟩
  | .connError => ⟨u, .connectionError, none, "Connection failed"⟩
  | .reqExc m => ⟨u, .error, none, m⟩
  | .otherExc m => ⟨u, .error, none, "Unexpected error: " ++ m⟩

/-- `LinkValidator.validate_url` (business_tools_app.py lines 43-74).
Cells are modelled as strings; the `not url or pd.isna(url) or
str(url).strip() == ''` guard collapses to a trimmed-emptiness test.
A URL without an http scheme is prefixed with `https://` when it starts
with `www.` or contains a dot, and rejected as `invalid` otherwise. -/
def validate_url (net : Net) (url : String) : VResult :=
  if py_strip url = "" then ⟨url, .empty, none, "Empty URL"⟩
  else
    let u := py_strip url
    if py_startswith u "http://" || py_startswith u "https://" then
      try_request net u
    else if py_startswith u "www." then try_request net ("https://" ++ u)
    else if py_contains u '.' then try_request net ("https://" ++ u)
    else ⟨u, .invalid, none, "Invalid URL format"⟩

/-- `LinkValidator.validate_urls_batch` (business_tools_app.py lines
76-91).  One future is submitted per input URL and `as_completed`
yields the futures in an unspecified completion order; the completion
order is the explicit parameter `order`, a permutation of the input
positions (hypothesis of the theorems below).  The collected list holds
the result of `validate_url` on the URL at position `order[k]` at
position `k`. -/
def validate_urls_batch (net : Net) (order : List Nat) (urls : List String) :
    List VResult :=
  order.map (fun i => validate_url net (urls.getD i ""))

/-- One row of the master table, restricted to the fields touched by
link validation: the `url` cell, the three link columns written by
`validate_links_with_progress`, and `name` as the distinguishing
payload. -/
structure LRow where
  name : String
  url : String
  link_status : String
  link_code : Option Nat
  link_message : String
  deriving DecidableEq, Repr

/-- The string stored into the `link_status` column: Python writes
`result['status']`, the status literal itself. -/
def status_str : Status → String
  | .empty => "empty"
  | .invalid => "invalid"
  | .valid => "valid"
  | .error => "error"
  | .timeout => "timeout"
  | .connectionError => "connection_error"

/-- The three `df.loc[i, ...] = ...` writes of
`validate_links_with_progress` (business_tools_app.py lines 228-231)
applied to one row: note `result['code'] if result['code'] else ''`
stores nothing for a missing or zero code. -/
def apply_result (r : LRow) (res : VResult) : LRow :=
  { r with
    link_status := status_str res.status
    link_code := match res.code with
      | some c => if c = 0 then none else some c
      | none => none
    link_message := res.message }

/-- The write-back loop `for i, result in enumerate(validation_results):
df.loc[i, ...] = ...` (business_tools_app.py lines 228-231): the k-th
collected result is written into the k-th row.  We model the favorable
case in which the frame's index labels coincide with positions (as they
do on the re-validation path after `read_csv`). -/
def apply_results : List LRow → List VResult → List LRow
  | [], _ => []
  | rs, [] => rs
  | r :: rs, res :: ress => apply_result r res :: apply_results rs ress

/-- `DataProcessor.validate_links_with_progress`
(business_tools_app.py lines 214-233): validate the `url` column as a
batch, then fold the results back into the rows positionally.  The
progress callback only reports and does not affect the data, so it is
omitted. -/
def validate_links_with_progress (net : Net) (order : List Nat)
    (rows : List LRow) : List LRow :=
  apply_results rows (validate_urls_batch net order (rows.map (·.url)))

/-- The duplicate-removal pass of `DataProcessor.process_files`
(business_tools_app.py line 272):
`master_df.drop_duplicates(subset=['url'], keep='first')` keeps a row
exactly when its `url` cell has not occurred in an earlier row.  `seen`
is the set of url values of the rows already kept. -/
def drop_duplicates_url (seen : List String) : List LRow → List LRow
  | [] => []
  | r :: rs =>
    if r.url ∈ seen then drop_duplicates_url seen rs
    else r :: drop_duplicates_url (r.url :: seen) rs

/-- The merge-and-deduplicate core of `DataProcessor.process_files`
(business_tools_app.py lines 259-272): the per-file tables are
concatenated in processing order (`pd.concat(all_data,
ignore_index=True)`) and rows whose `url` duplicates an earlier row are
dropped.  Link validation runs on the result afterwards and is modelled
separately by `validate_links_with_progress`. -/
def process_files_merge_dedup (tables : List (List LRow)) : List LRow :=
  drop_duplicates_url [] tables.flatten

/-- Modelled from the spec glossary, for comparison with the source:
a normalized URL is the URL string with a scheme prefix added if
missing (the comparison key the spec says deduplication uses). -/
def spec_normalized_url (u : String) : String :=
  if py_startswith u "http://" || py_startswith u "https://" then u
  else "https://" ++ u

/-- One column of a pandas DataFrame in business_tools_app.py: its
label and its cells (cells modelled as strings). -/
structure Col where
  name : String
  cells : List String
  deriving DecidableEq, Repr

/-- `DataProcessor.column_mappings` (business_tools_app.py lines
103-110): target column name paired with its acceptable header
spellings. -/
def column_mappings : List (String × List String) :=
  [("name", ["name", "tool_name", "tool", "title", "application", "service"]),
   ("description", ["description", "desc", "summary", "overview", "about"]),
   ("url", ["url", "link", "website", "web_address", "site"]),
   ("category", ["category", "type", "classification", "group"]),
   ("access", ["access", "availability", "access_type", "public", "internal"]),
   ("notes", ["notes", "comments", "remarks", "additional_info"])]

/-- `col.lower().strip()` applied to a column label
(business_tools_app.py line 161). -/
def lower_strip (s : String) : String :=
  py_strip (py_lower s)

/-- Python dict assignment on an association list: replace the value of
an existing key, otherwise append the new binding. -/
def dict_insert (m : List (String × String)) (k v : String) :
    List (String × String) :=
  if m.any (fun p => p.1 = k) then
    m.map (fun p => if p.1 = k then (k, v) else p)
  else m ++ [(k, v)]

/-- First variation of one target column whose lowercase form occurs
among the lowered-stripped input labels (the `for variation in
variations ... break` search, business_tools_app.py lines 164-168). -/
def first_matching_variation (current : List String) (variations : List String) :
    Option String :=
  variations.find? (fun v => current.contains (py_lower v))

/-- `current_columns.index(variation)` resolved back to the original
label: the first input column whose lowered-stripped label equals the
matched variation (business_tools_app.py line 166). -/
def original_col_for (cols : List Col) (v : String) : Option String :=
  (cols.find? (fun c => lower_strip c.name = v)).map (·.name)

/-- The `column_map` dict of `standardize_columns`
(business_tools_app.py lines 160-168): for each target column in
mapping order, the first matching variation picks an original label
which is bound to the target name. -/
def build_column_map (cols : List Col) : List (String × String) :=
  column_mappings.foldl
    (fun m p =>
      match first_matching_variation (cols.map (fun c => lower_strip c.name)) p.2 with
      | some v =>
        match original_col_for cols (py_lower v) with
        | some orig => dict_insert m orig p.1
        | none => m
      | none => m)
    []

/-- Association-list lookup (Python dict read). -/
def dict_get (m : List (String × String)) (k : String) : Option String :=
  (m.find? (fun p => p.1 = k)).map (·.2)

/-- `df_copy.rename(columns=column_map)` (business_tools_app.py line
171): every column whose label is a key of the map takes the mapped
name; all cells are kept. -/
def rename_columns (m : List (String × String)) (cols : List Col) : List Col :=
  cols.map (fun c => { c with name := (dict_get m c.name).getD c.name })

/-- `df[name] = value` on a whole column: pandas replaces the cells of
every column carrying that label, or appends a new column when the
label is absent. -/
def py_set_col (cols : List Col) (n : String) (cells : List String) : List Col :=
  if cols.any (fun c => c.name = n) then
    cols.map (fun c => if c.name = n then { c with cells := cells } else c)
  else cols ++ [⟨n, cells⟩]

/-- Row count of the frame: the length of its first column (0 for a
frame with no columns), matching pandas where all columns share one
index. -/
def frame_len (cols : List Col) : Nat :=
  match cols with
  | [] => 0
  | c :: _ => c.cells.length

/-- The five metadata columns added by `standardize_columns`
(business_tools_app.py lines 178-183); `date_processed` holds
`pd.Timestamp.now().isoformat()`, passed in as `now`. -/
def metadata_names : List String :=
  ["source_file", "date_processed", "link_status", "link_code", "link_message"]

/-- The step function that appends missing target columns
(business_tools_app.py lines 174-176). -/
def ensure_std_step (n : Nat) (acc : List Col) (p : String × List String) :
    List Col :=
  if acc.any (fun c => c.name = p.1) then acc
  else acc ++ [⟨p.1, List.replicate n ""⟩]

/-- `DataProcessor.standardize_columns` (business_tools_app.py lines
155-185): build the synonym map over the lowered-stripped labels,
rename the matched columns in place, append any missing target column
filled with empty strings, then set the five metadata columns. -/
def standardize_columns (now : String) (cols : List Col) : List Col :=
  let cmap := build_column_map cols
  let renamed := rename_columns cmap cols
  let n := frame_len renamed
  let withStd := column_mappings.foldl (ensure_std_step n) renamed
  let withSrc := py_set_col withStd "source_file" (List.replicate n "")
  let withDate := py_set_col withSrc "date_processed" (List.replicate n now)
  let withLs := py_set_col withDate "link_status" (List.replicate n "")
  let withLc := py_set_col withLs "link_code" (List.replicate n "")
  py_set_col withLc "link_message" (List.replicate n "")

/-! Definitions for business_tools.py: description enrichment and the
standardize-and-validate filter. -/

/-- Characters Python urlparse accepts inside a scheme after the
leading letter: letters, digits, `+`, `-`, `.`. -/
def is_scheme_char (c : Char) : Bool :=
  c.isAlpha || c.isDigit || c = '+' || c = '-' || c = '.'

/-- Whether `urlparse(url)` yields both a non-empty `scheme` and a
non-empty `netloc` — the `all([parsed.scheme, parsed.netloc])` guard of
`extract_url_description` (business_tools.py lines 157-159).  Follows
CPython urlsplit: a scheme is the text before the first colon when it
starts with a letter and uses only scheme characters; a netloc is the
text between a leading `//` of the remainder and the next `/`, `?` or
`#`. -/
def urlparse_has_scheme_netloc (u : String) : Bool :=
  let cs := u.toList
  let split :=
    match cs.findIdx? (fun c => c = ':') with
    | some i =>
      if 0 < i && (cs.headD ' ').isAlpha && (cs.take i).all is_scheme_char then
        (true, cs.drop (i + 1))
      else (false, cs)
    | none => (false, cs)
  let hasNetloc :=
    match split.2 with
    | '/' :: '/' :: r =>
      !(r.takeWhile (fun c => !(c = '/' || c = '?' || c = '#'))).isEmpty
    | _ => false
  split.1 && hasNetloc

/-- `if not url.startswith(('http://', 'https://')): url = 'https://' +
url` — the scheme default applied before the enrichment `GET`
(business_tools.py lines 162-163) and before the reachability HEAD of
`standardize_and_validate_dataframe` (lines 288-289). -/
def ensure_scheme (u : String) : String :=
  if py_startswith u "http://" || py_startswith u "https://" then u
  else "https://" ++ u

/-- Word accumulator for Python `s.split()`: split on whitespace runs,
dropping empty pieces. -/
def split_ws_go (cur : List Char) : List Char → List String
  | [] => if cur.isEmpty then [] else [⟨cur.reverse⟩]
  | c :: cs =>
    if c.isWhitespace then
      if cur.isEmpty then split_ws_go [] cs
      else ⟨cur.reverse⟩ :: split_ws_go [] cs
    else split_ws_go (c :: cur) cs

/-- Python `s.split()` with no argument. -/
def py_split_ws (s : String) : List String :=
  split_ws_go [] s.data

/-- Python `' '.join(ws)`. -/
def py_join_space : List String → String
  | [] => ""
  | [w] => w
  | w :: ws => w ++ " " ++ py_join_space ws

/-- `' '.join(title.split())` (business_tools.py line 217). -/
def collapse_ws (s : String) : String :=
  py_join_space (py_split_ws s)

/-- The title cleanup of `extract_url_description` (business_tools.py
lines 215-220): collapse internal whitespace, then truncate to 97
characters plus an ellipsis marker when longer than 100. -/
def clean_title (t : String) : String :=
  let t2 := collapse_ws t
  if py_len t2 > 100 then py_take t2 97 ++ "..." else t2

/-- One step of the fallback chain: a candidate counts only when
present and non-empty after stripping, in which case its stripped form
is taken (`if not title` treats the empty string as missing). -/
def non_empty_strip : Option String → Option String
  | some s => if py_strip s = "" then none else some (py_strip s)
  | none => none

/-- The extraction fallback chain of `extract_url_description`
(business_tools.py lines 183-212): page title, then meta description,
then Open Graph title, then first heading. -/
def pick_title (p : Page) : Option String :=
  (non_empty_strip p.title) <|> (non_empty_strip p.metaDesc) <|>
    (non_empty_strip p.ogTitle) <|> (non_empty_strip p.h1)

/-- `extract_url_description` (business_tools.py lines 144-231).
Returns the description string together with the list of URLs actually
sent to the network by this call (empty when the urlparse guard rejects
the input, a single `GET` target otherwise).  Each caught exception
class maps to its diagnostic string; the happy path runs the fallback
chain and cleanup. -/
def extract_url_description (net : Net) (url : String) : String × List String :=
  if urlparse_has_scheme_netloc url = false then ("Invalid URL format", [])
  else
    let u := ensure_scheme url
    match net.fetch u with
    | .ok p =>
      match pick_title p with
      | some t => (clean_title t, [u])
      | none => ("No description found", [u])
    | .timeout => ("Request timeout", [u])
    | .connError => ("Connection failed", [u])
    | .httpError c => ("HTTP error: " ++ toString c, [u])
    | .exc m => ("Error: " ++ py_take m 50, [u])

/-- One DataFrame cell in business_tools.py: `none` models a missing
value (NaN), `some s` a string value. -/
abbrev Cell := Option String

/-- Python `str(...)` on a cell: NaN prints as `nan`. -/
def cell_str (c : Cell) : String :=
  match c with
  | none => "nan"
  | some s => s

/-- One column of a pandas DataFrame in business_tools.py. -/
structure BCol where
  name : String
  cells : List Cell
  deriving DecidableEq, Repr

/-- `pd.isna(v) or str(v).strip().lower() in ('', 'nan', 'none')` —
the emptiness test used when filling the description column
(business_tools.py lines 366, 370). -/
def is_emptyish (c : Cell) : Bool :=
  match c with
  | none => true
  | some s =>
    py_lower (py_strip s) = "" || py_lower (py_strip s) = "nan" ||
      py_lower (py_strip s) = "none"

/-- Read cell `idx` of the column labelled `n` (pandas `df.at[idx,
n]`). -/
def bdf_get (df : List BCol) (n : String) (idx : Nat) : Cell :=
  match df.find? (fun c => c.name = n) with
  | some c => c.cells.getD idx none
  | none => none

/-- Write cell `idx` of the column labelled `n` (pandas `df.at[idx, n]
= v`). -/
def bdf_set (df : List BCol) (n : String) (idx : Nat) (v : String) : List BCol :=
  df.map (fun c => if c.name = n then { c with cells := c.cells.set idx (some v) } else c)

/-- `df[n] = cells` on a business_tools.py frame: replace the cells of
every column with that label, or append a new column. -/
def py_set_bcol (df : List BCol) (n : String) (cells : List Cell) : List BCol :=
  if df.any (fun c => c.name = n) then
    df.map (fun c => if c.name = n then { c with cells := cells } else c)
  else df ++ [⟨n, cells⟩]

/-- The column-discovery loop of `process_urls_in_dataframe`
(business_tools.py lines 334-339): the loop has no break, so the last
column whose stripped lowercase label equals `key` wins. -/
def find_named_col (df : List BCol) (key : String) : Option String :=
  ((df.filter (fun c => py_lower (py_strip c.name) = key)).getLast?).map (·.name)

/-- State threaded through the enrichment scan: the URL description
cache (`self.url_cache`), the frame being written (`df_processed`), the
URLs that missed the cache (one `extract_url_description` call each, in
order), and the URLs actually requested from the network. -/
structure EnrichState where
  cache : List (String × String)
  df : List BCol
  misses : List String
  fetched : List String

/-- The description-column fill for one cell (business_tools.py lines
363-375): an empty, NaN or placeholder description cell is filled,
preferring a non-empty synopsis cell over the fetched description.
Only the frame is written; cache and logs are untouched. -/
def fill_desc_cell (descCol synCol : Option String) (idx : Nat)
    (description : String) (st : EnrichState) : EnrichState :=
  match descCol with
  | none => st
  | some dc =>
    if is_emptyish (bdf_get st.df dc idx) then
      match synCol with
      | some sc =>
        let sv := bdf_get st.df sc idx
        if is_emptyish sv = false then
          { st with df := bdf_set st.df dc idx (py_strip (cell_str sv)) }
        else { st with df := bdf_set st.df dc idx description }
      | none => { st with df := bdf_set st.df dc idx description }
    else st

/-- Processing of one cell inside the scan loop of
`process_urls_in_dataframe` (business_tools.py lines 345-377): NaN
cells contribute an empty description; otherwise the first detected URL
is looked up in the cache (read before write) and only a miss calls
`extract_url_description` and stores the result; then the description
fill of `fill_desc_cell` runs. -/
def process_cell (net : Net) (detect : String → List String)
    (descCol synCol : Option String) (idx : Nat) (cell : Cell)
    (st : EnrichState) : String × EnrichState :=
  match cell with
  | none => ("", st)
  | some s =>
    match detect s with
    | [] => ("", st)
    | u :: _ =>
      let found :=
        match dict_get st.cache u with
        | some d => (d, st)
        | none =>
          let r := extract_url_description net u
          (r.1, { st with cache := st.cache ++ [(u, r.1)],
                          misses := st.misses ++ [u],
                          fetched := st.fetched ++ r.2 })
      (found.1, fill_desc_cell descCol synCol idx found.1 found.2)

/-- Whether a cell makes the column count as URL-bearing
(`urls_found`). -/
def cell_has_urls (detect : String → List String) (cell : Cell) : Bool :=
  match cell with
  | none => false
  | some s => !(detect s).isEmpty

/-- The inner cell loop over one column (business_tools.py lines
344-377), collecting the per-row description list and the `urls_found`
flag while threading the state. -/
def process_cells (net : Net) (detect : String → List String)
    (descCol synCol : Option String) (idx : Nat) :
    List Cell → EnrichState → List String × Bool × EnrichState
  | [], st => ([], false, st)
  | c :: cs, st =>
    let r := process_cell net detect descCol synCol idx c st
    let rest := process_cells net detect descCol synCol (idx + 1) cs r.2
    (r.1 :: rest.1, cell_has_urls detect c || rest.2.1, rest.2.2)

/-- One iteration of the outer column loop (business_tools.py lines
342-383): scan the column's cells of the input frame and, when URLs
were found, add the `<col>_Description` column to the frame being
built. -/
def process_one_column (net : Net) (detect : String → List String)
    (descCol synCol : Option String) (col : BCol) (st : EnrichState) :
    EnrichState :=
  let r := process_cells net detect descCol synCol 0 col.cells st
  if r.2.1 then
    { r.2.2 with
      df := py_set_bcol r.2.2.df (col.name ++ "_Description") (r.1.map some) }
  else r.2.2

/-- `DataProcessor.process_urls_in_dataframe` (business_tools.py lines
317-391).  `detect` stands for `detect_urls_in_text` (lines 233-254);
the memoization theorems below hold for every detector, in particular
the regex-based one of the source.  `cache0` is the content of
`self.url_cache` at entry (the cache lives on the processor instance).
The outer loop iterates the columns of the input frame, so detection
reads only input cells; all writes go to the threaded copy. -/
def process_urls_in_dataframe (net : Net) (detect : String → List String)
    (cache0 : List (String × String)) (df : List BCol) : EnrichState :=
  let descCol := find_named_col df "description"
  let synCol := find_named_col df "synopsis"
  df.foldl (fun st col => process_one_column net detect descCol synCol col st)
    { cache := cache0, df := df, misses := [], fetched := [] }

/-- The URL the scan loop would act on for one cell: the head of the
detection result on a string cell (business_tools.py line 353). -/
def cell_head (detect : String → List String) : Cell → Option String
  | none => none
  | some s => (detect s).head?

/-- All acted-on URLs of a column's cells, in scan order. -/
def heads_of_cells (detect : String → List String) : List Cell → List String
  | [] => []
  | c :: cs =>
    match cell_head detect c with
    | some u => u :: heads_of_cells detect cs
    | none => heads_of_cells detect cs

/-- All acted-on URLs of a frame, in scan order. -/
def detected_heads (detect : String → List String) : List BCol → List String
  | [] => []
  | col :: rest =>
    heads_of_cells detect col.cells ++ detected_heads detect rest

/-- The network requests issued when extracting each URL of a list in
turn. -/
def fetched_of (net : Net) : List String → List String
  | [] => []
  | u :: us => (extract_url_description net u).2 ++ fetched_of net us

/-- Invariant of the enrichment scan: the cache-miss log is
duplicate-free, misses were absent from the initial cache, every miss
is now cached (read-before-write discipline), initial cache entries
are never lost, the fetch log is exactly the requests of the misses in
order, and every miss is an acted-on URL of the frame. -/
def EnrichInv (net : Net) (c0 : List (String × String))
    (urls : List String) (st : EnrichState) : Prop :=
  st.misses.Nodup
  ∧ (∀ u ∈ st.misses, dict_get c0 u = none)
  ∧ (∀ u ∈ st.misses, dict_get st.cache u ≠ none)
  ∧ (∀ u, dict_get c0 u ≠ none → dict_get st.cache u ≠ none)
  ∧ st.fetched = fetched_of net st.misses
  ∧ (∀ u ∈ st.misses, u ∈ urls)

/-- `col_map.get(k)` for `standardize_and_validate_dataframe`
(business_tools.py line 265): the dict comprehension `{c.lower(): c}`
lets the last column win for a repeated lowercase label. -/
def sv_col_get (cols : List BCol) (k : String) : Option BCol :=
  (cols.filter (fun c => py_lower c.name = k)).getLast?

/-- The `col_map.get(a) or col_map.get(b) or ...` chains
(business_tools.py lines 267-271); a column whose label is the empty
string is falsy and skipped. -/
def sv_first_col (cols : List BCol) : List String → Option BCol
  | [] => none
  | k :: ks =>
    match sv_col_get cols k with
    | some c => if c.name = "" then sv_first_col cols ks else some c
    | none => sv_first_col cols ks

/-- The five column selections of `standardize_and_validate_dataframe`
(business_tools.py lines 267-278) in assignment order, each either a
mapped input column's cells or a scalar `''` fill. -/
def sv_cols_spec (cols : List BCol) : List (Option (List Cell)) :=
  [(sv_first_col cols ["name", "tool name", "title"]).map (·.cells),
   (sv_first_col cols ["discription", "description", "synopsis"]).map (·.cells),
   (sv_first_col cols ["url", "link", "website"]).map (·.cells),
   (sv_first_col cols ["catagory", "category"]).map (·.cells),
   (sv_first_col cols ["access", "access level"]).map (·.cells)]

/-- The row count `new_df` ends up with: pandas fixes the index at the
first list-valued assignment, so it is the length of the first mapped
column (0 when every target falls back to a scalar). -/
def sv_frame_len (specs : List (Option (List Cell))) : Nat :=
  match specs.filterMap id with
  | [] => 0
  | s :: _ => s.length

/-- Materialization of the five assignments under pandas index
alignment: a series is aligned to the index by position (missing labels
become NaN); a scalar assigned before the index exists is reindexed to
NaN, a scalar assigned afterwards broadcasts to `''`. -/
def sv_materialize_go (n : Nat) (seenSeries : Bool) :
    List (Option (List Cell)) → List (List Cell)
  | [] => []
  | some s :: rest =>
    ((List.range n).map (fun i => s.getD i none)) :: sv_materialize_go n true rest
  | none :: rest =>
    (List.replicate n (if seenSeries then some "" else none)) ::
      sv_materialize_go n seenSeries rest

/-- The five cell series of `new_df` (Name, Discription, URL, Catagory,
Access). -/
def sv_materialize (specs : List (Option (List Cell))) : List (List Cell) :=
  sv_materialize_go (sv_frame_len specs) false specs

/-- One output row of `standardize_and_validate_dataframe` after the
loop rewrote Name, Discription and URL; Catagory and Access keep their
cells. -/
structure SvRow where
  name : String
  discription : String
  url : String
  catagory : Cell
  access : Cell
  deriving DecidableEq, Repr

/-- The body of the validation loop of
`standardize_and_validate_dataframe` (business_tools.py lines 281-301)
for one row: an empty stripped URL is skipped; the scheme-defaulted URL
must answer the `HEAD` probe with a status below 400 (any exception
skips the row); a kept row carries the stripped name, the freshly
extracted description and the scheme-defaulted URL. -/
def sv_validate_row (net : Net) (nameC urlC catC accC : Cell) : Option SvRow :=
  let url := py_strip (cell_str urlC)
  let name := py_strip (cell_str nameC)
  if url = "" then none
  else
    let u := ensure_scheme url
    match net.head u with
    | .ok c =>
      if 400 ≤ c then none
      else some ⟨name, (extract_url_description net u).1, u, catC, accC⟩
    | _ => none

/-- Python word characters (ASCII model of `\w`). -/
def is_word_char (c : Char) : Bool :=
  c.isAlphanum || c = '_'

/-- Whether the regex `\b(401|402|403|404)\b` matches at the head of
the character list, `prev` being the character just before it. -/
def code_word_at (prev : Option Char) : List Char → Bool
  | '4' :: '0' :: d :: rest =>
    (d = '1' || d = '2' || d = '3' || d = '4')
      && (match prev with | some p => !is_word_char p | none => true)
      && (match rest with | c :: _ => !is_word_char c | [] => true)
  | _ => false

/-- Scan for a match of `\b(401|402|403|404)\b` anywhere. -/
def scan_code_word (prev : Option Char) : List Char → Bool
  | [] => false
  | c :: cs => code_word_at prev (c :: cs) || scan_code_word (some c) cs

/-- `str.contains(r'\b(401|402|403|404)\b', case=False)` on a
description (business_tools.py line 305); the pattern is digits-only so
case-insensitivity is vacuous. -/
def has_code_word (s : String) : Bool :=
  scan_code_word none s.toList

/-- Sort key of the final `sort_values(by='Name', ascending=False,
key=lambda x: x.astype(str).str.lower())` (business_tools.py line
308). -/
def sv_key (r : SvRow) : String :=
  py_lower r.name

/-- Insertion step of the descending sort by lowercased name. -/
def insert_by_key_desc (r : SvRow) : List SvRow → List SvRow
  | [] => [r]
  | x :: xs =>
    if sv_key x ≤ sv_key r then r :: x :: xs else x :: insert_by_key_desc r xs

/-- The descending sort by lowercased name; only the row multiset
matters for the properties proved here, so the tie order of the
library quicksort is not modelled. -/
def sort_by_name_desc (l : List SvRow) : List SvRow :=
  l.foldr insert_by_key_desc []

/-- `DataProcessor.standardize_and_validate_dataframe`
(business_tools.py lines 257-309): map the input columns onto the five
target columns, validate each row's URL against the network, drop rows
whose description carries a 401-404 word, and sort by name
descending. -/
def standardize_and_validate_dataframe (net : Net) (cols : List BCol) :
    List SvRow :=
  let specs := sv_cols_spec cols
  let mat := sv_materialize specs
  let n := sv_frame_len specs
  let rows := (List.range n).filterMap (fun i =>
    sv_validate_row net ((mat.getD 0 []).getD i none) ((mat.getD 2 []).getD i none)
      ((mat.getD 3 []).getD i none) ((mat.getD 4 []).getD i none))
  let rows2 := rows.filter (fun r => !has_code_word r.discription)
  sort_by_name_desc rows2

/-! Concrete inputs used by the closed theorems and witnesses. -/

/-- A network where every request succeeds with 200 and every page has
the title `A  Title`. -/
def ok_net : Net :=
  ⟨fun _ => .ok 200, fun _ => .ok 200,
   fun _ => .ok ⟨some "  A  Title ", none, none, none⟩⟩

/-- A network that times out on every page fetch. -/
def timeout_net : Net :=
  ⟨fun _ => .ok 200, fun _ => .ok 200, fun _ => .timeout⟩

/-- A network where `https://a.test` answers 200 and every other URL
answers 500. -/
def c1_net : Net :=
  ⟨fun u => if u = "https://a.test" then .ok 200 else .ok 500,
   fun _ => .ok 500, fun _ => .timeout⟩

/-- Row whose URL is reachable under `c1_net`. -/
def c1_row_a : LRow := ⟨"A", "https://a.test", "", none, ""⟩

/-- Row whose URL answers 500 under `c1_net`. -/
def c1_row_b : LRow := ⟨"B", "https://b.test", "", none, ""⟩

/-- Two rows whose URLs differ as strings but agree once
scheme-normalized. -/
def c4_rows : List LRow :=
  [⟨"A", "example.com", "", none, ""⟩, ⟨"B", "https://example.com", "", none, ""⟩]

/-- Two single-row tables whose rows both have an empty URL. -/
def c5_tables : List (List LRow) :=
  [[⟨"A", "", "", none, ""⟩], [⟨"B", "", "", none, ""⟩]]

/-- The values `detect_urls_in_text` (business_tools.py lines 233-254)
returns on the two cells of `c9_bad_df`: the regex's `www.`-alternative
matches `www.` followed by characters from a class whose `$-_` range
spans `:` and `/`, so the whole of `www.x://host` is one detection; the
scheme alternative likewise matches all of `https://www.x://host`. -/
def c9_bad_detect : String → List String :=
  fun s =>
    if s = "www.x://host" then ["www.x://host"]
    else if s = "https://www.x://host" then ["https://www.x://host"]
    else []

/-- A frame whose one column contains a `www.`-detection and its
https-prefixed spelling — two distinct detected strings with the same
normalized URL. -/
def c9_bad_df : List BCol :=
  [⟨"Links", [some "www.x://host", some "https://www.x://host"]⟩]

/-! Helper lemmas. -/

/-- Mapping position lookups over the index range recovers the list. -/
theorem range_map_getD {α : Type} (l : List α) (d : α) :
    (List.range l.length).map (fun i => l.getD i d) = l := by
  induction l with
  | nil => simp
  | cons a t ih =>
    rw [List.length_cons, List.range_succ_eq_map, List.map_cons, List.map_map]
    have hcomp : ((fun i => (a :: t).getD i d) ∘ Nat.succ)
        = (fun i => t.getD i d) := by
      funext i
      simp [List.getD]
    rw [hcomp, ih]
    simp [List.getD]

/-- `validate_url` only ever produces one of the six enumerated
statuses. -/
theorem validate_url_status_cases (net : Net) (u : String) :
    (validate_url net u).status = .empty ∨ (validate_url net u).status = .invalid ∨
    (validate_url net u).status = .valid ∨ (validate_url net u).status = .error ∨
    (validate_url net u).status = .timeout ∨
    (validate_url net u).status = .connectionError := by
  cases h : (validate_url net u).status <;> simp

/-- Deduplication returns a sublist of its input. -/
theorem drop_duplicates_url_sublist (seen : List String) (l : List LRow) :
    (drop_duplicates_url seen l).Sublist l := by
  induction l generalizing seen with
  | nil => simp [drop_duplicates_url]
  | cons a t ih =>
    rw [drop_duplicates_url]
    split
    · exact (ih seen).cons a
    · exact (ih (a.url :: seen)).cons₂ a

/-- No deduplicated row carries a URL from the seen set. -/
theorem drop_duplicates_url_not_seen (seen : List String) (l : List LRow)
    (r : LRow) (hr : r ∈ drop_duplicates_url seen l) : r.url ∉ seen := by
  induction l generalizing seen with
  | nil => simp [drop_duplicates_url] at hr
  | cons a t ih =>
    rw [drop_duplicates_url] at hr
    split at hr
    · exact ih seen hr
    · rcases List.mem_cons.mp hr with rfl | hr2
      · assumption
      · intro hcontra
        exact ih (a.url :: seen) hr2 (List.mem_cons_of_mem _ hcontra)

/-- The deduplicated rows have pairwise distinct URL values. -/
theorem drop_duplicates_url_nodup (seen : List String) (l : List LRow) :
    ((drop_duplicates_url seen l).map (·.url)).Nodup := by
  induction l generalizing seen with
  | nil => simp [drop_duplicates_url]
  | cons a t ih =>
    rw [drop_duplicates_url]
    split
    · exact ih seen
    · rw [List.map_cons, List.nodup_cons]
      refine ⟨?_, ih (a.url :: seen)⟩
      intro hcontra
      rcases List.mem_map.mp hcontra with ⟨r, hr, hru⟩
      exact drop_duplicates_url_not_seen _ _ _ hr (hru ▸ List.mem_cons_self _ _)

/-- Characterization of deduplication: a row is kept exactly when it
occurs after a prefix free of its URL (and its URL is not in the seen
set). -/
theorem mem_drop_duplicates_url (seen : List String) (l : List LRow)
    (r : LRow) :
    r ∈ drop_duplicates_url seen l ↔
      ∃ l1 l2, l = l1 ++ r :: l2 ∧ r.url ∉ seen ∧
        r.url ∉ l1.map (·.url) := by
  induction l generalizing seen with
  | nil =>
    simp only [drop_duplicates_url, List.not_mem_nil, false_iff]
    rintro ⟨l1, l2, hdecomp, -⟩
    cases l1 <;> simp_all
  | cons a t ih =>
    rw [drop_duplicates_url]
    by_cases hmem : a.url ∈ seen
    · rw [if_pos hmem, ih]
      constructor
      · rintro ⟨l1, l2, rfl, hseen, hl1⟩
        refine ⟨a :: l1, l2, rfl, hseen, ?_⟩
        rw [List.map_cons, List.mem_cons]
        rintro (heq | hin)
        · exact hseen (heq ▸ hmem)
        · exact hl1 hin
      · rintro ⟨l1, l2, hdecomp, hseen, hl1⟩
        cases l1 with
        | nil =>
          simp only [List.nil_append, List.cons.injEq] at hdecomp
          exact absurd (hdecomp.1 ▸ hmem : r.url ∈ seen) hseen
        | cons b l1t =>
          simp only [List.cons_append, List.cons.injEq] at hdecomp
          refine ⟨l1t, l2, hdecomp.2, hseen, ?_⟩
          intro hin
          exact hl1 (List.mem_cons_of_mem _ hin)
    · rw [if_neg hmem, List.mem_cons, ih]
      constructor
      · rintro (rfl | ⟨l1, l2, rfl, hseen, hl1⟩)
        · exact ⟨[], t, rfl, hmem, by simp⟩
        · refine ⟨a :: l1, l2, rfl, ?_, ?_⟩
          · exact fun hc => hseen (List.mem_cons_of_mem _ hc)
          · rw [List.map_cons, List.mem_cons]
            rintro (heq | hin)
            · exact hseen (heq ▸ List.mem_cons_self _ _)
            · exact hl1 hin
      · rintro ⟨l1, l2, hdecomp, hseen, hl1⟩
        cases l1 with
        | nil =>
          simp only [List.nil_append, List.cons.injEq] at hdecomp
          exact Or.inl hdecomp.1.symm
        | cons b l1t =>
          simp only [List.cons_append, List.cons.injEq] at hdecomp
          refine Or.inr ⟨l1t, l2, hdecomp.2, ?_, ?_⟩
          · rw [List.mem_cons]
            rintro (heq | hin)
            · exact hl1 (hdecomp.1 ▸ heq ▸ List.mem_cons_self _ _)
            · exact hseen hin
          · intro hin
            exact hl1 (hdecomp.1 ▸ List.mem_cons_of_mem _ hin)

/-- A list whose mapped URLs are pairwise distinct has at most one
element with any given URL value. -/
theorem filter_url_length_le_one (l : List LRow)
    (hn : (l.map (·.url)).Nodup) (a : String) :
    (l.filter (fun r => r.url = a)).length ≤ 1 := by
  induction l with
  | nil => simp
  | cons x t ih =>
    rw [List.map_cons, List.nodup_cons] at hn
    by_cases hxa : x.url = a
    · have hnil : t.filter (fun r => r.url = a) = [] := by
        rw [List.filter_eq_nil_iff]
        intro r hr hra
        refine hn.1 ?_
        have h2 : r.url ∈ t.map (·.url) := List.mem_map_of_mem _ hr
        have h3 : r.url = a := by simpa using hra
        rwa [h3, ← hxa] at h2
      simp [List.filter_cons, hxa, hnil]
    · rw [List.filter_cons, if_neg (by simpa using hxa)]
      exact ih hn.2

/-! Claim theorems. -/

/-- C1: the claim says validation results are folded back into the
table keyed by each row's own URL for every completion order.  The
source instead writes the k-th completed result into the k-th row
(business_tools_app.py lines 228-231), which the spec itself flags as a
defect: with two reachable/unreachable rows completing in reversed
order, the first row receives the second row's status and vice versa,
while validating each row's own URL gives the opposite answers. -/
theorem c1_positional_misassociation :
    (validate_links_with_progress c1_net [1, 0] [c1_row_a, c1_row_b]).map
        (·.link_status) = ["error", "valid"]
    ∧ status_str (validate_url c1_net c1_row_a.url).status = "valid"
    ∧ status_str (validate_url c1_net c1_row_b.url).status = "error" := by
  exact ⟨rfl, rfl, rfl⟩

/-- C2: for every completion order of the batch, `validate_urls_batch`
returns exactly one result per input URL — the result list is a
permutation of the pointwise validation of the inputs, so every URL is
covered exactly once even with duplicates — and every result's status
is one of the six enumerated values; `validate_url` is total, so no
input propagates an exception. -/
theorem c2_validator_totality (net : Net) (urls : List String)
    (order : List Nat) (hperm : order.Perm (List.range urls.length)) :
    (validate_urls_batch net order urls).length = urls.length
    ∧ (validate_urls_batch net order urls).Perm (urls.map (validate_url net))
    ∧ ∀ r ∈ validate_urls_batch net order urls,
        r.status = .empty ∨ r.status = .invalid ∨ r.status = .valid ∨
        r.status = .error ∨ r.status = .timeout ∨
        r.status = .connectionError := by
  have hmap : (validate_urls_batch net order urls).Perm
      (urls.map (validate_url net)) := by
    have h1 := hperm.map (fun i => validate_url net (urls.getD i ""))
    have h2 : (List.range urls.length).map
        (fun i => validate_url net (urls.getD i ""))
        = urls.map (validate_url net) := by
      have h3 : (fun i => validate_url net (urls.getD i ""))
          = (validate_url net) ∘ (fun i => urls.getD i "") := rfl
      rw [h3, ← List.map_map, range_map_getD]
    exact h2 ▸ h1
  refine ⟨?_, hmap, ?_⟩
  · rw [hmap.length_eq, List.length_map]
  · intro r hr
    have : r ∈ urls.map (validate_url net) := hmap.mem_iff.mp hr
    rcases List.mem_map.mp this with ⟨u, _, rfl⟩
    exact validate_url_status_cases net u

/-- Witness for C2 at a concrete batch with a duplicated URL and a
reversed completion order. -/
theorem c2_witness :
    (validate_urls_batch ok_net [1, 0] ["a.test", "a.test"]).length = 2
    ∧ (validate_urls_batch ok_net [1, 0] ["a.test", "a.test"]).Perm
        (["a.test", "a.test"].map (validate_url ok_net)) :=
  ⟨(c2_validator_totality ok_net ["a.test", "a.test"] [1, 0] (by decide)).1,
   (c2_validator_totality ok_net ["a.test", "a.test"] [1, 0] (by decide)).2.1⟩

/-- C3: the case analysis of `validate_url`.  Empty or whitespace-only
input yields `empty` with no network call (the result is independent of
the network); input without a dot and without an http scheme or `www.`
prefix yields `invalid`, again without touching the network; scheme-less
input containing a dot (or starting with `www.`) is normalized by
prefixing `https://`, so `example.com` is checked as
`https://example.com`; for input carrying an http scheme a HEAD request
is issued, retried once as GET when the server answers 405, and the
final code classifies the result as `valid` (code below 400) or `error`
(code at least 400), each carrying the numeric code. -/
theorem c3_validate_url_cases (url : String) (net net2 : Net) (c c2n : Nat) :
    (py_strip url = "" →
      validate_url net url = ⟨url, .empty, none, "Empty URL"⟩
      ∧ validate_url net url = validate_url net2 url)
    ∧ (py_strip url ≠ "" → py_startswith (py_strip url) "http://" = false →
        py_startswith (py_strip url) "https://" = false →
        py_startswith (py_strip url) "www." = false →
        py_contains (py_strip url) '.' = false →
        validate_url net url
          = ⟨py_strip url, .invalid, none, "Invalid URL format"⟩
        ∧ validate_url net url = validate_url net2 url)
    ∧ (py_strip url ≠ "" → py_startswith (py_strip url) "http://" = false →
        py_startswith (py_strip url) "https://" = false →
        (py_startswith (py_strip url) "www." = true ∨
          py_contains (py_strip url) '.' = true) →
        validate_url net url = try_request net ("https://" ++ py_strip url))
    ∧ (py_strip url ≠ "" →
        (py_startswith (py_strip url) "http://" = true ∨
          py_startswith (py_strip url) "https://" = true) →
        net.head (py_strip url) = .ok c →
        (c ≠ 405 →
          validate_url net url =
            (if c < 400 then ⟨py_strip url, .valid, some c, "OK"⟩
             else ⟨py_strip url, .error, some c, "HTTP " ++ toString c⟩))
        ∧ (c = 405 → net.get (py_strip url) = .ok c2n →
          validate_url net url =
            (if c2n < 400 then ⟨py_strip url, .valid, some c2n, "OK"⟩
             else ⟨py_strip url, .error, some c2n, "HTTP " ++ toString c2n⟩)))
    ∧ validate_url ok_net "example.com"
        = ⟨"https://example.com", .valid, some 200, "OK"⟩ := by
  refine ⟨?_, ?_, ?_, ?_, rfl⟩
  · intro h
    constructor <;> simp [validate_url, h]
  · intro h h1 h2 h3 h4
    constructor <;> simp [validate_url, h, h1, h2, h3, h4]
  · intro h h1 h2 h3
    rcases h3 with h3 | h3 <;> simp [validate_url, h, h1, h2, h3]
  · intro h h1 hh
    constructor
    · intro hne
      rcases h1 with h1 | h1 <;>
        simp [validate_url, try_request, h, h1, hh, hne]
    · intro he hg
      subst he
      rcases h1 with h1 | h1 <;>
        simp [validate_url, try_request, h, h1, hh, hg]

/-- Witness for C3 at the scenario-A input and at an input lacking any
dot. -/
theorem c3_witness :
    validate_url ok_net "  " = ⟨"  ", .empty, none, "Empty URL"⟩
    ∧ validate_url ok_net "noDotHere"
        = ⟨"noDotHere", .invalid, none, "Invalid URL format"⟩ :=
  ⟨((c3_validate_url_cases "  " ok_net ok_net 0 0).1 (by decide)).1,
   ((c3_validate_url_cases "noDotHere" ok_net ok_net 0 0).2.1 (by decide)
     (by decide) (by decide) (by decide) (by decide)).1⟩

/-- C8: `extract_url_description` returns a string on every outcome —
the function is total by construction — and maps each failure to its
diagnostic: a timeout to `Request timeout`, a connection failure to
`Connection failed`, an HTTP error to a string carrying the status
code, and any other exception to a truncated error string; a URL that
fails the urlparse guard is answered without a network call. -/
theorem c8_enrichment_error_mapping (url : String) (net : Net) (c : Nat)
    (m : String) (p : Page) :
    (urlparse_has_scheme_netloc url = false →
      extract_url_description net url = ("Invalid URL format", []))
    ∧ (urlparse_has_scheme_netloc url = true →
        (net.fetch (ensure_scheme url) = .timeout →
          extract_url_description net url
            = ("Request timeout", [ensure_scheme url]))
        ∧ (net.fetch (ensure_scheme url) = .connError →
          extract_url_description net url
            = ("Connection failed", [ensure_scheme url]))
        ∧ (net.fetch (ensure_scheme url) = .httpError c →
          extract_url_description net url
            = ("HTTP error: " ++ toString c, [ensure_scheme url]))
        ∧ (net.fetch (ensure_scheme url) = .exc m →
          extract_url_description net url
            = ("Error: " ++ py_take m 50, [ensure_scheme url]))
        ∧ (net.fetch (ensure_scheme url) = .ok p → pick_title p = none →
          extract_url_description net url
            = ("No description found", [ensure_scheme url]))
        ∧ (∀ t, net.fetch (ensure_scheme url) = .ok p → pick_title p = some t →
          extract_url_description net url
            = (clean_title t, [ensure_scheme url]))) := by
  constructor
  · intro h
    simp [extract_url_description, h]
  · intro h
    refine ⟨?_, ?_, ?_, ?_, ?_, ?_⟩
    · intro hf
      simp [extract_url_description, h, hf]
    · intro hf
      simp [extract_url_description, h, hf]
    · intro hf
      simp [extract_url_description, h, hf]
    · intro hf
      simp [extract_url_description, h, hf]
    · intro hf hp
      simp [extract_url_description, h, hf, hp]
    · intro t hf hp
      simp [extract_url_description, h, hf, hp]

/-- Witness for C8: a fetch that times out yields the diagnostic
string. -/
theorem c8_witness :
    extract_url_description timeout_net "https://x.test"
      = ("Request timeout", ["https://x.test"]) :=
  ((c8_enrichment_error_mapping "https://x.test" timeout_net 0 ""
      ⟨none, none, none, none⟩).2 (by decide)).1 rfl

/-- C4 counterexample: the claim says no two output rows share a
normalized URL, but deduplication keys on the raw `url` cell before any
normalization, so `example.com` and `https://example.com` — equal once
scheme-normalized — both survive. -/
theorem c4_counterexample :
    (process_files_merge_dedup [c4_rows]).length = 2
    ∧ spec_normalized_url
        ((process_files_merge_dedup [c4_rows]).getD 0 ⟨"", "", "", none, ""⟩).url
      = spec_normalized_url
        ((process_files_merge_dedup [c4_rows]).getD 1 ⟨"", "", "", none, ""⟩).url := by
  decide

/-- C4 amended: the deduplicated output of `process_files` has at most
as many rows as the inputs together, no two output rows share the same
raw `url` value (rather than the same normalized URL), and a row is
retained exactly when it is the first occurrence of its raw `url` in
source-file processing order, then row order within file. -/
theorem c4_dedup_first_occurrence (tables : List (List LRow)) :
    (process_files_merge_dedup tables).length ≤ (tables.map List.length).sum
    ∧ ((process_files_merge_dedup tables).map (·.url)).Nodup
    ∧ ∀ r, r ∈ process_files_merge_dedup tables ↔
        ∃ l1 l2, tables.flatten = l1 ++ r :: l2 ∧ r.url ∉ l1.map (·.url) := by
  refine ⟨?_, drop_duplicates_url_nodup [] tables.flatten, ?_⟩
  · calc (process_files_merge_dedup tables).length
        ≤ tables.flatten.length :=
          (drop_duplicates_url_sublist [] tables.flatten).length_le
      _ = (tables.map List.length).sum := by
          rw [List.length_flatten]
  · intro r
    rw [process_files_merge_dedup, mem_drop_duplicates_url]
    constructor
    · rintro ⟨l1, l2, hd, -, hl1⟩
      exact ⟨l1, l2, hd, hl1⟩
    · rintro ⟨l1, l2, hd, hl1⟩
      exact ⟨l1, l2, hd, List.not_mem_nil _, hl1⟩

/-- C5 counterexample: the claim says rows with empty URL are never
treated as duplicates of one another, but merging two files whose single
rows both carry an empty URL leaves only the first row — the second
empty-URL row is removed as a duplicate. -/
theorem c5_counterexample :
    c5_tables.flatten.length = 2
    ∧ c5_tables.flatten.all (fun r => r.url = "")
    ∧ process_files_merge_dedup c5_tables = [⟨"A", "", "", none, ""⟩] := by
  decide

/-- C5 amended: rows with empty URL are deduplicated like any other
URL value — at most one row with an empty `url` cell survives the
duplicate-removal step of `process_files`. -/
theorem c5_empty_url_collapsed (tables : List (List LRow)) :
    ((process_files_merge_dedup tables).filter (fun r => r.url = "")).length
      ≤ 1 :=
  filter_url_length_le_one _ (drop_duplicates_url_nodup [] tables.flatten) ""


/-- Setting a column never drops another column: a column with a
different label survives untouched. -/
theorem py_set_col_mem_of_ne (cols : List Col) (n : String)
    (cells : List String) (c : Col) (hc : c ∈ cols) (hne : c.name ≠ n) :
    c ∈ py_set_col cols n cells := by
  rw [py_set_col]
  split
  · have h2 := List.mem_map_of_mem
      (fun c => if c.name = n then { c with cells := cells } else c) hc
    simpa [if_neg hne] using h2
  · exact List.mem_append_left _ hc

/-- Setting a column preserves every existing column label. -/
theorem py_set_col_name_mem (cols : List Col) (n : String)
    (cells : List String) (m : String) (hm : m ∈ cols.map (·.name)) :
    m ∈ (py_set_col cols n cells).map (·.name) := by
  rw [py_set_col]
  split
  · rcases List.mem_map.mp hm with ⟨c, hc, rfl⟩
    refine List.mem_map.mpr
      ⟨if c.name = n then { c with cells := cells } else c,
        List.mem_map_of_mem _ hc, ?_⟩
    by_cases h : c.name = n <;> simp [h]
  · rw [List.map_append]
    exact List.mem_append_left _ hm

/-- Setting a column makes its label present. -/
theorem py_set_col_sets_name (cols : List Col) (n : String)
    (cells : List String) :
    n ∈ (py_set_col cols n cells).map (·.name) := by
  rw [py_set_col]
  split
  · rename_i h
    rcases List.any_eq_true.mp h with ⟨c, hc, hcn⟩
    have hcn2 : c.name = n := by simpa using hcn
    refine List.mem_map.mpr
      ⟨if c.name = n then { c with cells := cells } else c,
        List.mem_map_of_mem _ hc, ?_⟩
    simp [hcn2]
  · simp

/-- The append-missing-targets fold keeps every column. -/
theorem ensure_std_fold_mem (n : Nat) (l : List (String × List String))
    (acc : List Col) (c : Col) (hc : c ∈ acc) :
    c ∈ l.foldl (ensure_std_step n) acc := by
  induction l generalizing acc with
  | nil => exact hc
  | cons p t ih =>
    refine ih _ ?_
    rw [ensure_std_step]
    split
    · exact hc
    · exact List.mem_append_left _ hc

/-- The append-missing-targets fold keeps every column label. -/
theorem ensure_std_fold_name_mem (n : Nat) (l : List (String × List String))
    (acc : List Col) (m : String) (hm : m ∈ acc.map (·.name)) :
    m ∈ (l.foldl (ensure_std_step n) acc).map (·.name) := by
  induction l generalizing acc with
  | nil => exact hm
  | cons p t ih =>
    refine ih _ ?_
    rw [ensure_std_step]
    split
    · exact hm
    · rw [List.map_append]
      exact List.mem_append_left _ hm

/-- After the fold, every target label of the processed list is
present. -/
theorem ensure_std_fold_adds (n : Nat) (l : List (String × List String))
    (acc : List Col) (p : String × List String) (hp : p ∈ l) :
    p.1 ∈ (l.foldl (ensure_std_step n) acc).map (·.name) := by
  induction l generalizing acc with
  | nil => cases hp
  | cons q t ih =>
    rcases List.mem_cons.mp hp with rfl | hp2
    · refine ensure_std_fold_name_mem n t _ p.1 ?_
      rw [ensure_std_step]
      split
      · rename_i h
        rcases List.any_eq_true.mp h with ⟨c, hc, hcn⟩
        exact List.mem_map.mpr ⟨c, hc, by simpa using hcn⟩
      · rw [List.map_append]
        exact List.mem_append_right _ (by simp)
    · exact ih _ hp2

/-- Membership in a dict built by `dict_insert` steps comes from the
inserted binding or an earlier one. -/
theorem mem_dict_insert (m : List (String × String)) (k v : String)
    (pr : String × String) (hpr : pr ∈ dict_insert m k v) :
    pr = (k, v) ∨ pr ∈ m := by
  rw [dict_insert] at hpr
  split at hpr
  · rcases List.mem_map.mp hpr with ⟨q, hq, hqe⟩
    by_cases h : q.1 = k
    · rw [if_pos h] at hqe
      exact Or.inl hqe.symm
    · rw [if_neg h] at hqe
      exact Or.inr (hqe ▸ hq)
  · rcases List.mem_append.mp hpr with h | h
    · exact Or.inr h
    · simp only [List.mem_singleton] at h
      exact Or.inl h

/-- Every value of the synonym map is a target column name. -/
theorem build_column_map_values (cols : List Col) (pr : String × String)
    (hpr : pr ∈ build_column_map cols) : pr.2 ∈ column_mappings.map (·.1) := by
  rw [build_column_map] at hpr
  have main : ∀ (l : List (String × List String))
      (acc : List (String × String)),
      (∀ q ∈ acc, q.2 ∈ column_mappings.map (·.1)) →
      (∀ p2 ∈ l, p2.1 ∈ column_mappings.map (·.1)) →
      ∀ q ∈ l.foldl
        (fun m p =>
          match first_matching_variation
              (cols.map (fun c => lower_strip c.name)) p.2 with
          | some v =>
            match original_col_for cols (py_lower v) with
            | some orig => dict_insert m orig p.1
            | none => m
          | none => m)
        acc, q.2 ∈ column_mappings.map (·.1) := by
    intro l
    induction l with
    | nil => exact fun acc hacc _ => hacc
    | cons p t ih =>
      intro acc hacc hl q hq
      refine ih _ ?_ (fun p2 hp2 => hl p2 (List.mem_cons_of_mem _ hp2)) q hq
      intro q2 hq2
      have hq3 : q2 ∈ (match first_matching_variation
          (cols.map (fun c => lower_strip c.name)) p.2 with
        | some v =>
          match original_col_for cols (py_lower v) with
          | some orig => dict_insert acc orig p.1
          | none => acc
        | none => acc) := hq2
      cases hfmv : first_matching_variation
          (cols.map (fun c => lower_strip c.name)) p.2 with
      | none =>
        rw [hfmv] at hq3
        exact hacc _ hq3
      | some v =>
        have hq4 : q2 ∈ (match original_col_for cols (py_lower v) with
          | some orig => dict_insert acc orig p.1
          | none => acc) := by
          rw [hfmv] at hq3
          exact hq3
        cases hoc : original_col_for cols (py_lower v) with
        | none =>
          rw [hoc] at hq4
          exact hacc _ hq4
        | some orig =>
          rw [hoc] at hq4
          rcases mem_dict_insert _ _ _ _ hq4 with rfl | h2
          · exact hl p (List.mem_cons_self _ _)
          · exact hacc _ h2
  exact main column_mappings [] (by simp) (fun p hp => List.mem_map_of_mem _ hp)
    pr hpr

/-- A successful dict lookup exposes a member binding. -/
theorem dict_get_mem (m : List (String × String)) (k s : String)
    (h : dict_get m k = some s) : (k, s) ∈ m := by
  rw [dict_get] at h
  rcases Option.map_eq_some'.mp h with ⟨pr, hfind, hsnd⟩
  have hmem := List.mem_of_find?_eq_some hfind
  have hfst : pr.1 = k := by simpa using List.find?_some hfind
  have hpr : pr = (k, s) := by
    cases pr with
    | mk a b =>
      simp only at hfst hsnd
      rw [hfst, hsnd]
  exact hpr ▸ hmem

/-- No target column name is a metadata column name. -/
theorem std_names_not_metadata (s : String)
    (hs : s ∈ column_mappings.map (·.1)) : s ∉ metadata_names := by
  fin_cases hs <;> decide

/-- C6 counterexample: the claim says every input column that maps to
no target column is absent from the output (the output being exactly
the target columns), but `standardize_columns` only renames matched
columns and appends missing ones — an unmapped column `foo` is still
present in the output. -/
theorem c6_counterexample :
    "foo" ∈ (standardize_columns "2025-01-01" [⟨"foo", ["x"]⟩]).map (·.name) := by
  decide

/-- C6 amended: the output of `standardize_columns` contains every
target column (a matched input column is renamed in place to its
target, keeping its cells — first matching synonym wins inside
`build_column_map` — and missing targets are appended empty) plus the
five metadata columns; an input column that maps to no target column is
retained unchanged rather than dropped, unless its label is one of the
metadata columns, which are overwritten.  The operation is total by
construction. -/
theorem c6_standardize_amended (now : String) (cols : List Col) :
    (∀ s ∈ column_mappings.map (·.1),
      s ∈ (standardize_columns now cols).map (·.name))
    ∧ (∀ m ∈ metadata_names,
      m ∈ (standardize_columns now cols).map (·.name))
    ∧ (∀ c ∈ cols, dict_get (build_column_map cols) c.name = none →
        c.name ∉ metadata_names → c ∈ standardize_columns now cols)
    ∧ (∀ c ∈ cols, ∀ s, dict_get (build_column_map cols) c.name = some s →
        (⟨s, c.cells⟩ : Col) ∈ standardize_columns now cols) := by
  refine ⟨?_, ?_, ?_, ?_⟩
  · intro s hs
    rcases List.mem_map.mp hs with ⟨p, hp, rfl⟩
    simp only [standardize_columns]
    exact py_set_col_name_mem _ _ _ _ (py_set_col_name_mem _ _ _ _
      (py_set_col_name_mem _ _ _ _ (py_set_col_name_mem _ _ _ _
        (py_set_col_name_mem _ _ _ _ (ensure_std_fold_adds _ _ _ p hp)))))
  · intro m hm
    fin_cases hm <;> simp only [standardize_columns]
    · exact py_set_col_name_mem _ _ _ _ (py_set_col_name_mem _ _ _ _
        (py_set_col_name_mem _ _ _ _ (py_set_col_name_mem _ _ _ _
          (py_set_col_sets_name _ _ _))))
    · exact py_set_col_name_mem _ _ _ _ (py_set_col_name_mem _ _ _ _
        (py_set_col_name_mem _ _ _ _ (py_set_col_sets_name _ _ _)))
    · exact py_set_col_name_mem _ _ _ _ (py_set_col_name_mem _ _ _ _
        (py_set_col_sets_name _ _ _))
    · exact py_set_col_name_mem _ _ _ _ (py_set_col_sets_name _ _ _)
    · exact py_set_col_sets_name _ _ _
  · intro c hc hget hmeta
    simp only [metadata_names, List.mem_cons, List.not_mem_nil, or_false,
      not_or] at hmeta
    have h1 : c ∈ rename_columns (build_column_map cols) cols := by
      have h0 : (⟨Option.getD (dict_get (build_column_map cols) c.name)
            c.name, c.cells⟩ : Col) ∈ List.map
          (fun c => ({ c with
            name := (dict_get (build_column_map cols) c.name).getD c.name } : Col))
          cols :=
        List.mem_map_of_mem _ hc
      rw [hget] at h0
      rw [rename_columns]
      exact h0
    have h2 : c ∈ column_mappings.foldl
        (ensure_std_step (frame_len (rename_columns (build_column_map cols)
          cols))) (rename_columns (build_column_map cols) cols) :=
      ensure_std_fold_mem _ _ _ _ h1
    simp only [standardize_columns]
    exact py_set_col_mem_of_ne _ _ _ _ (py_set_col_mem_of_ne _ _ _ _
      (py_set_col_mem_of_ne _ _ _ _ (py_set_col_mem_of_ne _ _ _ _
        (py_set_col_mem_of_ne _ _ _ _ h2 hmeta.1) hmeta.2.1)
          hmeta.2.2.1) hmeta.2.2.2.1) hmeta.2.2.2.2
  · intro c hc s hget
    have hs : s ∈ column_mappings.map (·.1) :=
      build_column_map_values cols (c.name, s) (dict_get_mem _ _ _ hget)
    have hmeta := std_names_not_metadata s hs
    simp only [metadata_names, List.mem_cons, List.not_mem_nil, or_false,
      not_or] at hmeta
    have h1 : (⟨s, c.cells⟩ : Col) ∈ rename_columns (build_column_map cols)
        cols := by
      have h0 : (⟨Option.getD (dict_get (build_column_map cols) c.name)
            c.name, c.cells⟩ : Col) ∈ List.map
          (fun c => ({ c with
            name := (dict_get (build_column_map cols) c.name).getD c.name } : Col))
          cols :=
        List.mem_map_of_mem _ hc
      rw [hget] at h0
      rw [rename_columns]
      exact h0
    have h2 : (⟨s, c.cells⟩ : Col) ∈ column_mappings.foldl
        (ensure_std_step (frame_len (rename_columns (build_column_map cols)
          cols))) (rename_columns (build_column_map cols) cols) :=
      ensure_std_fold_mem _ _ _ _ h1
    simp only [standardize_columns]
    exact py_set_col_mem_of_ne _ _ _ _ (py_set_col_mem_of_ne _ _ _ _
      (py_set_col_mem_of_ne _ _ _ _ (py_set_col_mem_of_ne _ _ _ _
        (py_set_col_mem_of_ne _ _ _ _ h2 hmeta.1) hmeta.2.1)
          hmeta.2.2.1) hmeta.2.2.2.1) hmeta.2.2.2.2

/-- Looking up an appended dict falls through exactly when the front
part misses. -/
theorem dict_get_append (m1 m2 : List (String × String)) (k : String) :
    dict_get (m1 ++ m2) k
      = match dict_get m1 k with
        | some v => some v
        | none => dict_get m2 k := by
  induction m1 with
  | nil => simp [dict_get]
  | cons p t ih =>
    by_cases h : p.1 = k
    · simp [dict_get, List.find?, h]
    · simpa [dict_get, List.find?, h] using ih

/-- The description fill touches only the frame. -/
theorem fill_desc_cell_fields (descCol synCol : Option String) (idx : Nat)
    (d : String) (st : EnrichState) :
    (fill_desc_cell descCol synCol idx d st).misses = st.misses
    ∧ (fill_desc_cell descCol synCol idx d st).cache = st.cache
    ∧ (fill_desc_cell descCol synCol idx d st).fetched = st.fetched := by
  rw [fill_desc_cell.eq_def]
  split
  · exact ⟨rfl, rfl, rfl⟩
  · split
    · split
      · dsimp only
        split
        · exact ⟨rfl, rfl, rfl⟩
        · exact ⟨rfl, rfl, rfl⟩
      · exact ⟨rfl, rfl, rfl⟩
    · exact ⟨rfl, rfl, rfl⟩

/-- The invariant only reads the cache, miss and fetch fields. -/
theorem enrich_inv_congr (net : Net) (c0 : List (String × String))
    (urls : List String) (st st2 : EnrichState)
    (h1 : st2.misses = st.misses) (h2 : st2.cache = st.cache)
    (h3 : st2.fetched = st.fetched) (h : EnrichInv net c0 urls st) :
    EnrichInv net c0 urls st2 := by
  rw [EnrichInv, h1, h2, h3]
  exact h

/-- Appending one URL to the miss list appends its requests to the
fetch log. -/
theorem fetched_of_append_one (net : Net) (l : List String) (u : String) :
    fetched_of net (l ++ [u]) = fetched_of net l
      ++ (extract_url_description net u).2 := by
  induction l with
  | nil => simp [fetched_of]
  | cons v t ih => simp [fetched_of, ih]

/-- One cell step preserves the enrichment invariant. -/
theorem process_cell_inv (net : Net) (detect : String → List String)
    (descCol synCol : Option String) (idx : Nat) (cell : Cell)
    (c0 : List (String × String)) (urls : List String) (st : EnrichState)
    (hcell : ∀ u, cell_head detect cell = some u → u ∈ urls)
    (hinv : EnrichInv net c0 urls st) :
    EnrichInv net c0 urls
      (process_cell net detect descCol synCol idx cell st).2 := by
  cases cell with
  | none => exact hinv
  | some s =>
    rw [process_cell]
    cases hd : detect s with
    | nil => exact hinv
    | cons u rest =>
      simp only
      have hu : u ∈ urls := hcell u (by simp [cell_head, hd])
      cases hlook : dict_get st.cache u with
      | some d =>
        simp only [hlook]
        exact enrich_inv_congr net c0 urls st _
          (fill_desc_cell_fields _ _ _ _ _).1
          (fill_desc_cell_fields _ _ _ _ _).2.1
          (fill_desc_cell_fields _ _ _ _ _).2.2 hinv
      | none =>
        simp only [hlook]
        obtain ⟨hnd, hc0, hcached, hkeep, hfet, hurls⟩ := hinv
        have hufresh : u ∉ st.misses := fun hmem => hcached u hmem hlook
        have hinv2 : EnrichInv net c0 urls
            { st with cache := st.cache ++ [(u, (extract_url_description net u).1)],
                      misses := st.misses ++ [u],
                      fetched := st.fetched ++ (extract_url_description net u).2 } := by
          refine ⟨?_, ?_, ?_, ?_, ?_, ?_⟩
          · rw [List.nodup_append]
            exact ⟨hnd, List.nodup_singleton u,
              fun v hv hvu => hufresh ((List.mem_singleton.mp hvu) ▸ hv)⟩
          · intro v hv
            rcases List.mem_append.mp hv with hv2 | hv2
            · exact hc0 v hv2
            · rw [List.mem_singleton.mp hv2]
              by_contra h
              exact hkeep u h hlook
          · intro v hv
            rw [dict_get_append]
            rcases List.mem_append.mp hv with hv2 | hv2
            · have := hcached v hv2
              cases hvl : dict_get st.cache v with
              | none => exact absurd hvl this
              | some d2 => simp
            · rw [List.mem_singleton.mp hv2, hlook]
              simp [dict_get, List.find?]
          · intro v hv
            rw [dict_get_append]
            have := hkeep v hv
            cases hvl : dict_get st.cache v with
            | none => exact absurd hvl this
            | some d2 => simp
          · rw [hfet, fetched_of_append_one]
          · intro v hv
            rcases List.mem_append.mp hv with hv2 | hv2
            · exact hurls v hv2
            · rw [List.mem_singleton.mp hv2]
              exact hu
        exact enrich_inv_congr net c0 urls _ _
          (fill_desc_cell_fields _ _ _ _ _).1
          (fill_desc_cell_fields _ _ _ _ _).2.1
          (fill_desc_cell_fields _ _ _ _ _).2.2 hinv2

/-- The cell loop over one column preserves the enrichment
invariant. -/
theorem process_cells_inv (net : Net) (detect : String → List String)
    (descCol synCol : Option String) (c0 : List (String × String))
    (urls : List String) (cells : List Cell) (idx : Nat) (st : EnrichState)
    (hcells : ∀ c ∈ cells, ∀ u, cell_head detect c = some u → u ∈ urls)
    (hinv : EnrichInv net c0 urls st) :
    EnrichInv net c0 urls
      (process_cells net detect descCol synCol idx cells st).2.2 := by
  induction cells generalizing idx st with
  | nil => exact hinv
  | cons c cs ih =>
    rw [process_cells]
    exact ih (idx + 1) _ (fun c2 hc2 => hcells c2 (List.mem_cons_of_mem _ hc2))
      (process_cell_inv net detect descCol synCol idx c c0 urls st
        (hcells c (List.mem_cons_self _ _)) hinv)

/-- One column step preserves the enrichment invariant. -/
theorem process_one_column_inv (net : Net) (detect : String → List String)
    (descCol synCol : Option String) (c0 : List (String × String))
    (urls : List String) (col : BCol) (st : EnrichState)
    (hcol : ∀ c ∈ col.cells, ∀ u, cell_head detect c = some u → u ∈ urls)
    (hinv : EnrichInv net c0 urls st) :
    EnrichInv net c0 urls
      (process_one_column net detect descCol synCol col st) := by
  rw [process_one_column]
  have hbase := process_cells_inv net detect descCol synCol c0 urls col.cells 0
    st hcol hinv
  split
  · exact enrich_inv_congr net c0 urls _ _ rfl rfl rfl hbase
  · exact hbase

/-- The column fold preserves the enrichment invariant. -/
theorem process_fold_inv (net : Net) (detect : String → List String)
    (descCol synCol : Option String) (c0 : List (String × String))
    (urls : List String) (l : List BCol) (st : EnrichState)
    (hl : ∀ col ∈ l, ∀ c ∈ col.cells, ∀ u, cell_head detect c = some u →
      u ∈ urls)
    (hinv : EnrichInv net c0 urls st) :
    EnrichInv net c0 urls
      (l.foldl (fun st col => process_one_column net detect descCol synCol
        col st) st) := by
  induction l generalizing st with
  | nil => exact hinv
  | cons col t ih =>
    exact ih _ (fun col2 h2 => hl col2 (List.mem_cons_of_mem _ h2))
      (process_one_column_inv net detect descCol synCol c0 urls col st
        (hl col (List.mem_cons_self _ _)) hinv)

/-- An acted-on URL of a cell is listed in the heads of its cells. -/
theorem mem_heads_of_cells (detect : String → List String)
    (cells : List Cell) (c : Cell) (hc : c ∈ cells) (u : String)
    (hu : cell_head detect c = some u) :
    u ∈ heads_of_cells detect cells := by
  induction cells with
  | nil => cases hc
  | cons c2 cs ih =>
    rw [heads_of_cells]
    rcases List.mem_cons.mp hc with rfl | h3
    · rw [hu]
      exact List.mem_cons_self _ _
    · cases hmatch : cell_head detect c2 with
      | none => exact ih h3
      | some v => exact List.mem_cons_of_mem _ (ih h3)

/-- An acted-on URL of a cell of a column of the frame is listed in
`detected_heads`. -/
theorem mem_detected_heads (detect : String → List String) (df : List BCol)
    (col : BCol) (hcol : col ∈ df) (c : Cell) (hc : c ∈ col.cells)
    (u : String) (hu : cell_head detect c = some u) :
    u ∈ detected_heads detect df := by
  induction df with
  | nil => cases hcol
  | cons col2 t ih =>
    rw [detected_heads]
    rcases List.mem_cons.mp hcol with rfl | h2
    · exact List.mem_append_left _
        (mem_heads_of_cells detect col.cells c hc u hu)
    · exact List.mem_append_right _ (ih h2)

/-- The request list of one extraction call is empty or the single
scheme-defaulted URL. -/
theorem extract_calls_eq (net : Net) (u : String) :
    (extract_url_description net u).2 = []
    ∨ (extract_url_description net u).2 = [ensure_scheme u] := by
  rw [extract_url_description]
  split
  · exact Or.inl rfl
  · cases hf : net.fetch (ensure_scheme u) with
    | ok p => cases hp : pick_title p <;> simp [hf, hp]
    | timeout => simp [hf]
    | connError => simp [hf]
    | httpError c => simp [hf]
    | exc m => simp [hf]

/-- Each extraction call issues at most one network request, so the
fetch log of a miss list is never longer than the miss list. -/
theorem fetched_of_length_le (net : Net) (l : List String) :
    (fetched_of net l).length ≤ l.length := by
  induction l with
  | nil => simp [fetched_of]
  | cons u us ih =>
    rcases extract_calls_eq net u with h | h
    · rw [fetched_of, h, List.nil_append, List.length_cons]
      exact Nat.le_succ_of_le ih
    · rw [fetched_of, h, List.singleton_append, List.length_cons,
        List.length_cons]
      exact Nat.succ_le_succ ih

/-- Every entry of the fetch log is the scheme-defaulted form of some
miss. -/
theorem fetched_of_mem (net : Net) (l : List String) (v : String)
    (hv : v ∈ fetched_of net l) : ∃ u ∈ l, v = ensure_scheme u := by
  induction l with
  | nil => simp [fetched_of] at hv
  | cons u us ih =>
    rw [fetched_of] at hv
    rcases List.mem_append.mp hv with h | h
    · rcases extract_calls_eq net u with hc | hc
      · rw [hc] at h
        cases h
      · rw [hc, List.mem_singleton] at h
        exact ⟨u, List.mem_cons_self _ _, h⟩
    · rcases ih h with ⟨u2, hu2, hveq⟩
      exact ⟨u2, List.mem_cons_of_mem _ hu2, hveq⟩

/-- C9 counterexample: the claim says each distinct normalized URL is
fetched at most once per run, but the cache is keyed by the detected
URL string before normalization.  The source regex detects
`www.x://host` (its `www.`-alternative's character class spans `:` and
`/`) and `https://www.x://host` as distinct strings; both pass the
urlparse guard (the former parses with scheme `www.x` and netloc
`host`), only the latter carries an http scheme, so both miss the
cache under distinct keys and the run requests the single normalized
URL `https://www.x://host` twice. -/
theorem c9_counterexample :
    (process_urls_in_dataframe ok_net c9_bad_detect [] c9_bad_df).misses
      = ["www.x://host", "https://www.x://host"]
    ∧ spec_normalized_url "www.x://host"
      = spec_normalized_url "https://www.x://host"
    ∧ (process_urls_in_dataframe ok_net c9_bad_detect [] c9_bad_df).fetched
      = ["https://www.x://host", "https://www.x://host"]
    ∧ ¬(process_urls_in_dataframe ok_net c9_bad_detect []
        c9_bad_df).fetched.Nodup := by
  decide

/-- C9 amended: the description cache memoizes enrichment per detected
URL string (the cache key is the string as detected, before
normalization).  For every detector, network, initial cache content
and frame: the cache is read before any fetch — every cache miss was
absent from the initial cache, so a URL already present is reused
without a new network call — the miss list is duplicate-free, so each
distinct detected URL string is extracted at most once per run and
later occurrences take the cached description; and the fetch log is
exactly the requests of the misses in order, at most one per miss,
each being the scheme-defaulted miss.  Two distinct detected strings
that normalize to the same URL can, however, each trigger a fetch of
that URL (see the counterexample). -/
theorem c9_memoization_per_detected_url (net : Net)
    (detect : String → List String) (c0 : List (String × String))
    (df : List BCol) :
    (process_urls_in_dataframe net detect c0 df).misses.Nodup
    ∧ (∀ u ∈ (process_urls_in_dataframe net detect c0 df).misses,
        dict_get c0 u = none)
    ∧ (process_urls_in_dataframe net detect c0 df).fetched
        = fetched_of net (process_urls_in_dataframe net detect c0 df).misses
    ∧ (process_urls_in_dataframe net detect c0 df).fetched.length
        ≤ (process_urls_in_dataframe net detect c0 df).misses.length
    ∧ (∀ v ∈ (process_urls_in_dataframe net detect c0 df).fetched,
        ∃ u ∈ (process_urls_in_dataframe net detect c0 df).misses,
          v = ensure_scheme u) := by
  have hinv0 : EnrichInv net c0 (detected_heads detect df)
      { cache := c0, df := df, misses := [], fetched := [] } := by
    refine ⟨List.nodup_nil, by simp, by simp, fun u h => h, rfl, by simp⟩
  have hinv := process_fold_inv net detect (find_named_col df "description")
    (find_named_col df "synopsis") c0 (detected_heads detect df) df
    { cache := c0, df := df, misses := [], fetched := [] }
    (fun col hcol c hc u hu => mem_detected_heads detect df col hcol c hc u hu)
    hinv0
  obtain ⟨hnd, hc0, hcached, hkeep, hfet, hurls⟩ := hinv
  have hfet2 : (process_urls_in_dataframe net detect c0 df).fetched
      = fetched_of net (process_urls_in_dataframe net detect c0 df).misses :=
    hfet
  refine ⟨hnd, hc0, hfet2, ?_, ?_⟩
  · rw [hfet2]
    exact fetched_of_length_le net _
  · intro v hv
    rw [hfet2] at hv
    exact fetched_of_mem net _ v hv

/-- Membership after one insertion step of the descending sort. -/
theorem mem_insert_by_key_desc (r x : SvRow) (l : List SvRow)
    (hx : x ∈ insert_by_key_desc r l) : x = r ∨ x ∈ l := by
  induction l with
  | nil =>
    rw [insert_by_key_desc] at hx
    simpa using hx
  | cons y t ih =>
    rw [insert_by_key_desc] at hx
    split at hx
    · rcases List.mem_cons.mp hx with rfl | hx2
      · exact Or.inl rfl
      · exact Or.inr hx2
    · rcases List.mem_cons.mp hx with rfl | hx2
      · exact Or.inr (List.mem_cons_self _ _)
      · rcases ih hx2 with h | h
        · exact Or.inl h
        · exact Or.inr (List.mem_cons_of_mem _ h)

/-- The descending sort only permutes its input rows. -/
theorem mem_sort_by_name_desc (x : SvRow) (l : List SvRow)
    (hx : x ∈ sort_by_name_desc l) : x ∈ l := by
  induction l with
  | nil => exact hx
  | cons y t ih =>
    rcases mem_insert_by_key_desc y x (sort_by_name_desc t) hx with rfl | h2
    · exact List.mem_cons_self _ _
    · exact List.mem_cons_of_mem _ (ih h2)

/-- The scheme default never produces the empty string from a
non-empty input. -/
theorem ensure_scheme_ne_empty (s : String) (h : s ≠ "") :
    ensure_scheme s ≠ "" := by
  rw [ensure_scheme]
  split
  · exact h
  · intro hcontra
    have hlen := congrArg (fun t => t.data.length) hcontra
    simp at hlen

/-- What a kept row of the validation loop looks like: the raw URL cell
was non-empty after stripping, the scheme-defaulted URL answered the
HEAD probe below 400, and the stored description is the live
extraction for the stored URL. -/
theorem sv_validate_row_some (net : Net) (nameC urlC catC accC : Cell)
    (r : SvRow) (h : sv_validate_row net nameC urlC catC accC = some r) :
    py_strip (cell_str urlC) ≠ ""
    ∧ r.url = ensure_scheme (py_strip (cell_str urlC))
    ∧ (∃ c, net.head r.url = ReqOutcome.ok c ∧ c < 400)
    ∧ r.discription = (extract_url_description net r.url).1 := by
  rw [sv_validate_row] at h
  split at h
  · cases h
  · rename_i hne
    dsimp only at h
    cases hh : net.head (ensure_scheme (py_strip (cell_str urlC))) with
    | ok c =>
      rw [hh] at h
      have h2 : (if 400 ≤ c then none
          else some (⟨py_strip (cell_str nameC),
            (extract_url_description net
              (ensure_scheme (py_strip (cell_str urlC)))).1,
            ensure_scheme (py_strip (cell_str urlC)), catC, accC⟩ : SvRow))
          = some r := h
      by_cases hlt : 400 ≤ c
      · rw [if_pos hlt] at h2
        cases h2
      · rw [if_neg hlt] at h2
        have hr := Option.some.inj h2
        subst hr
        exact ⟨hne, rfl, ⟨c, hh, by omega⟩, rfl⟩
    | timeout =>
      rw [hh] at h
      cases h
    | connError =>
      rw [hh] at h
      cases h
    | reqExc m =>
      rw [hh] at h
      cases h
    | otherExc m =>
      rw [hh] at h
      cases h

/-- C10: `standardize_and_validate_dataframe` silently removes rows —
every row of the returned table has a non-empty URL that answered the
live HEAD probe with a status below 400 (rows with an empty URL cell,
a failing request or a status of 400 or more are absent), its
description is the live extraction for that URL, and no returned
description carries 401, 402, 403 or 404 as a whole word. -/
theorem c10_validation_filter (net : Net) (cols : List BCol) (r : SvRow)
    (hr : r ∈ standardize_and_validate_dataframe net cols) :
    r.url ≠ ""
    ∧ (∃ c, net.head r.url = ReqOutcome.ok c ∧ c < 400)
    ∧ has_code_word r.discription = false
    ∧ r.discription = (extract_url_description net r.url).1 := by
  rw [standardize_and_validate_dataframe] at hr
  have hr2 := mem_sort_by_name_desc r _ hr
  rw [List.mem_filter] at hr2
  have hword : has_code_word r.discription = false := by
    have := hr2.2
    simpa using this
  rcases List.mem_filterMap.mp hr2.1 with ⟨i, -, hrow⟩
  have hprops := sv_validate_row_some net _ _ _ _ r hrow
  exact ⟨hprops.2.1 ▸ ensure_scheme_ne_empty _ hprops.1, hprops.2.2.1, hword,
    hprops.2.2.2⟩

/-- Witness for C10 at a concrete frame: the returned row has a
non-empty URL and its description carries no 401-404 word. -/
theorem c10_witness :
    (⟨"Tool", "A Title", "https://x.com", some "", some ""⟩ : SvRow).url ≠ ""
    ∧ has_code_word
        (⟨"Tool", "A Title", "https://x.com", some "", some ""⟩ :
          SvRow).discription = false :=
  ⟨(c10_validation_filter ok_net
      [⟨"Name", [some "Tool"]⟩, ⟨"URL", [some "x.com"]⟩] _ (by decide)).1,
   (c10_validation_filter ok_net
      [⟨"Name", [some "Tool"]⟩, ⟨"URL", [some "x.com"]⟩] _ (by decide)).2.2.1⟩
